import Mathlib

/-!
# Verification of the address-matching core (`AddressMatcher`)

Shallow embedding of the address-matching engine of the repository:
name normalization, the similarity scorer, the per-candidate staged
scoring of the batch reverse match (`matchOperAddressFromJunboOptimized`),
candidate pruning, single-address matching and the `batchMatch`
orchestrator.  JavaScript strings are modelled as Lean `String`
(a list of characters); JavaScript numbers are modelled as exact
rationals `ℚ`; `Map`s built by scanning the input list are modelled
as the corresponding list filters; regex suffix replaces anchored at
the end of the string are modelled as conditional suffix stripping.
-/

set_option maxRecDepth 4000

/-! ## Characters and whitespace (for `String.prototype.trim`) -/

/-- Whitespace characters removed by the JavaScript `trim` used at the end
of `normalizeName`. -/
def isJsWs (c : Char) : Bool :=
  c = ' ' || c = '\t' || c = '\n' || c = '\r' ||
  c = '\x0b' || c = '\x0c' || c = ' ' || c = '﻿'

/-- Strip whitespace from both ends of a character list (JS `trim`). -/
def trimChars (l : List Char) : List Char :=
  ((l.dropWhile isJsWs).reverse.dropWhile isJsWs).reverse

/-! ## Name normalization (`normalizeName`) -/

/-- If `suf` is a suffix of `l`, remove it (once); otherwise leave `l`
unchanged.  Models a `replace(/suf$/, '')` on the tail of a string. -/
def stripTail (l : List Char) (suf : List Char) : List Char :=
  if suf.isSuffixOf l then l.take (l.length - suf.length) else l

/-- The ordered list of administrative suffixes stripped by
`normalizeName`, exactly in source order (longest compound suffixes
first, then generic single-character level suffixes). -/
def suffixStrs : List String :=
  ["布依族苗族自治州", "苗族侗族自治州", "维吾尔自治区", "回族自治区",
   "壮族自治区", "藏族自治州", "彝族自治州", "朝鲜族自治州",
   "蒙古族自治州", "哈萨克族自治州", "傣族景颇族自治州", "哈尼族彝族自治州",
   "特别行政区", "自治区", "自治州", "地区", "省", "市", "区", "县", "镇"]

/-- `normalizeName`: strip the fixed ordered list of administrative
suffixes (each applied once, in order) from the tail of the name, then
trim whitespace.  Empty input yields the empty string. -/
def normalizeName (s : String) : String :=
  ⟨trimChars (suffixStrs.foldl (fun acc suf => stripTail acc suf.data) s.data)⟩

/-! ## Levenshtein distance (`levenshteinDistance`) -/

/-- One pass of the dynamic program: compute the cells `j = 1..n` of the
next row.  `left` is the cell just computed in the new row, and the third
argument walks the previous row (`diag = prev[j-1]`, `up = prev[j]`). -/
def levCells (x : Char) : List Char → Nat → List Nat → List Nat
  | y :: ys, left, diag :: up :: rest =>
      let cell := if x = y then diag else 1 + min diag (min left up)
      cell :: levCells x ys cell (up :: rest)
  | _, _, _ => []

/-- Compute the next full row of the Levenshtein dynamic program from the
previous one. -/
def levNextRow (x : Char) (ys : List Char) (row : List Nat) : List Nat :=
  match row with
  | [] => []
  | r0 :: rest => (r0 + 1) :: levCells x ys (r0 + 1) (r0 :: rest)

/-- Classic unit-cost insert/delete/substitute edit distance, computed
row by row (same recurrence and values as the `dp` matrix in the
source). -/
def levenshteinDistance (s1 s2 : String) : Nat :=
  (s1.data.foldl (fun row x => levNextRow x s2.data row)
    (List.range (s2.data.length + 1))).getLastD 0

/-! ## Substring relations (JS `includes` / `startsWith`) -/

/-- `infixCheck needle hay` holds iff `needle` occurs contiguously in
`hay` (JS `hay.includes(needle)`). -/
def infixCheck (needle : List Char) : List Char → Bool
  | [] => needle.isEmpty
  | c :: t => needle.isPrefixOf (c :: t) || infixCheck needle t

/-- `strContains a b`: `a` contains `b` as a substring (JS
`a.includes(b)`). -/
def strContains (a b : String) : Bool := infixCheck b.data a.data

/-- `strStarts a b`: `a` starts with `b` (JS `a.startsWith(b)`). -/
def strStarts (a b : String) : Bool := b.data.isPrefixOf a.data

/-! ## Similarity scorer (`similarity`) -/

/-- The string similarity scorer: empty guard, exact equality,
normalized equality, containment of normalized forms (prefix containment
scored highest), then normalized Levenshtein similarity. -/
def similarity (s1 s2 : String) : ℚ :=
  if s1 = "" ∨ s2 = "" then 0
  else if s1 = s2 then 1
  else
    let n1 := normalizeName s1
    let n2 := normalizeName s2
    if n1 = n2 then 1
    else if strContains n1 n2 ∨ strContains n2 n1 then
      let minN := min n1.length n2.length
      let maxN := max n1.length n2.length
      if 2 ≤ minN then
        if strStarts n1 n2 ∨ strStarts n2 n1 then
          min (95/100) ((minN : ℚ) / (maxN : ℚ) * (95/100) + 1/10)
        else
          min (9/10) ((minN : ℚ) / (maxN : ℚ) * (9/10) + 1/20)
      else (minN : ℚ) / (maxN : ℚ) * (8/10)
    else
      let maxLen := max s1.length s2.length
      if maxLen = 0 then 1
      else 1 - (levenshteinDistance s1 s2 : ℚ) / (maxLen : ℚ)

/-! ## Data model -/

/-- Match method tags of a result. -/
inductive Method where
  | code | exact | fuzzy | none
deriving DecidableEq

/-- Confidence bands derived from the aggregate score. -/
inductive Confidence where
  | high | medium | low | none
deriving DecidableEq

/-- One input record from the external party (`OperAddressInput`):
six free-form name/code fields, any of which may be empty (the empty
string models an absent/falsy field).  Field mapping to the source:
`provName` = 省份名称, `provCode` = 省份编码, `cityNameIn` = 地市名称,
`cityCodeIn` = 地市编码, `distName` = 区县名称, `distCode` = 区县编码. -/
structure OperAddressInput where
  provName : String
  provCode : String
  cityNameIn : String
  cityCodeIn : String
  distName : String
  distCode : String
deriving DecidableEq

/-- A value in the reference catalog's nested tables: a name string, or
a malformed non-string entry (skipped defensively). -/
inductive JVal where
  | str (s : String)
  | other
deriving DecidableEq

/-- The reference catalog (`JunboAddressData`): a map from table key to
a code→value table, modelled as association lists with the object's
insertion order. -/
structure Catalog where
  tables : List (String × List (String × JVal))
deriving DecidableEq

/-- `data[k] || {}`: the table stored under key `k`, or empty. -/
def lookupTable (c : Catalog) (k : String) : List (String × JVal) :=
  match c.tables.find? (fun t => t.1 == k) with
  | Option.some t => t.2
  | Option.none => []

/-- The `(code, name)` entries of a table whose value is a string
(`typeof v === 'string'` filter). -/
def strEntries (t : List (String × JVal)) : List (String × String) :=
  t.filterMap (fun e =>
    match e.2 with
    | JVal.str s => Option.some (e.1, s)
    | JVal.other => Option.none)

/-- A reference composite address: one (province, city, district) leaf
of the catalog walk. -/
structure JunboAddr where
  provinceCode : String
  provinceName : String
  cityCode : String
  cityName : String
  districtCode : String
  districtName : String
deriving DecidableEq

/-- `generateAllJunboAddresses`: the full three-level walk of the
catalog (provinces under `"0000"`, cities under each province code,
districts under each city code), skipping non-string values. -/
def generateAllJunboAddresses (c : Catalog) : List JunboAddr :=
  (strEntries (lookupTable c "0000")).flatMap (fun pe =>
    (strEntries (lookupTable c pe.1)).flatMap (fun ce =>
      (strEntries (lookupTable c ce.1)).map (fun de =>
        ⟨pe.1, pe.2, ce.1, ce.2, de.1, de.2⟩)))

/-! ## Per-candidate staged scoring (`matchOperAddressFromJunboOptimized`) -/

/-- Result of one level's stage: the score contribution, the updated
method tag, and whether the level matched. -/
structure StageRes where
  add : ℚ
  method : Method
  matched : Bool
deriving DecidableEq

/-- Result of the district stage, which additionally records the
`districtExactMatch` / `districtFuzzyMatch` flags. -/
structure DistRes where
  add : ℚ
  method : Method
  dExact : Bool
  dFuzzy : Bool
deriving DecidableEq

/-- Province stage of the per-candidate scorer.  On entry the method tag
is `none`, so the source's conditional updates resolve to the literal
tags used here: code match → `code`, exact/normalized match → `exact`,
similarity ≥ 0.7 → `fuzzy`. -/
def provinceStage (j : JunboAddr) (i : OperAddressInput) : StageRes :=
  let nj := normalizeName j.provinceName
  if i.provCode ≠ "" ∧ i.provCode = j.provinceCode then
    ⟨1/4, Method.code, true⟩
  else if i.provName ≠ "" ∧ i.provName = j.provinceName then
    ⟨1/4, Method.exact, true⟩
  else if i.provName ≠ "" ∧ nj ≠ "" then
    let no := normalizeName i.provName
    if no = nj then ⟨1/4, Method.exact, true⟩
    else if no ≠ "" ∧ nj ≠ "" then
      let sim := similarity no nj
      if 7/10 ≤ sim then ⟨1/4 * sim, Method.fuzzy, true⟩
      else ⟨0, Method.none, false⟩
    else ⟨0, Method.none, false⟩
  else ⟨0, Method.none, false⟩

/-- The source's conditional method updates, as written at each level:
`method === 'code' ? 'code' : method` (the identity), `method === 'none'
? 'exact' : method`, and `method === 'fuzzy' ? 'fuzzy' : method` (also
the identity). -/
def keepCode (m : Method) : Method := if m = Method.code then Method.code else m

/-- `method === 'none' ? 'exact' : method`. -/
def noneToExact (m : Method) : Method := if m = Method.none then Method.exact else m

/-- `method === 'fuzzy' ? 'fuzzy' : method`. -/
def keepFuzzy (m : Method) : Method := if m = Method.fuzzy then Method.fuzzy else m

/-- City stage; `m` is the method tag after the province stage.  Mirrors
the source's inline containment logic (prefix containment → `exact`-tag
update, general containment, else similarity ≥ 0.7). -/
def cityStage (j : JunboAddr) (i : OperAddressInput) (m : Method) : StageRes :=
  let nj := normalizeName j.cityName
  if i.cityCodeIn ≠ "" ∧ i.cityCodeIn = j.cityCode then
    ⟨1/4, keepCode m, true⟩
  else if i.cityNameIn ≠ "" ∧ i.cityNameIn = j.cityName then
    ⟨1/4, noneToExact m, true⟩
  else if i.cityNameIn ≠ "" ∧ nj ≠ "" then
    let no := normalizeName i.cityNameIn
    if no = nj then
      ⟨1/4, noneToExact m, true⟩
    else if no ≠ "" ∧ nj ≠ "" then
      if strContains no nj = true ∨ strContains nj no = true then
        if 2 ≤ min no.length nj.length then
          if strStarts no nj = true ∨ strStarts nj no = true then
            ⟨1/4 * (95/100), noneToExact m, true⟩
          else
            ⟨1/4 * (85/100), keepFuzzy m, true⟩
        else ⟨0, m, false⟩
      else
        let sim := similarity no nj
        if 7/10 ≤ sim then
          ⟨1/4 * sim, keepFuzzy m, true⟩
        else ⟨0, m, false⟩
    else ⟨0, m, false⟩
  else ⟨0, m, false⟩

/-- Strip a single trailing 镇/区/县 character (the source's
`replace(/[镇区县]$/, '')` inside the district stage). -/
def stripDistrictTail (s : String) : String :=
  match s.data.reverse with
  | c :: rest => if c = '镇' ∨ c = '区' ∨ c = '县' then ⟨rest.reverse⟩ else s
  | [] => s

/-- District stage; `m` is the method tag after the city stage.  Exact,
code and normalized-equal matches set `districtExactMatch`; the
suffix-stripped containment branch and the similarity ≥ 0.85 branch set
`districtFuzzyMatch`. -/
def districtStage (j : JunboAddr) (i : OperAddressInput) (m : Method) : DistRes :=
  let nj := normalizeName j.districtName
  if i.distCode ≠ "" ∧ i.distCode = j.districtCode then
    ⟨1/2, keepCode m, true, false⟩
  else if i.distName ≠ "" ∧ i.distName = j.districtName then
    ⟨1/2, noneToExact m, true, false⟩
  else if i.distName ≠ "" ∧ nj ≠ "" then
    let no := normalizeName i.distName
    if no = nj then
      ⟨1/2, noneToExact m, true, false⟩
    else if no ≠ "" ∧ nj ≠ "" then
      let ow := stripDistrictTail no
      let jw := stripDistrictTail nj
      if ow = jw ∨ (ow ≠ "" ∧ jw ≠ "" ∧
          (strContains ow jw = true ∨ strContains jw ow = true)) then
        ⟨1/2 * (95/100), keepFuzzy m, false, true⟩
      else
        let sim := similarity no nj
        if 17/20 ≤ sim then
          ⟨1/2 * sim, keepFuzzy m, false, true⟩
        else ⟨0, m, false, false⟩
    else ⟨0, m, false, false⟩
  else ⟨0, m, false, false⟩

/-- The full per-candidate scoring record.  `provMatched`/`cityMatched`
expose the source's local `provinceMatched`/`cityMatched` flags;
`dExact`/`dFuzzy` are the saved `districtExactMatch`/`districtFuzzyMatch`
flags of a candidate. -/
structure Cand where
  score : ℚ
  method : Method
  dExact : Bool
  dFuzzy : Bool
  provMatched : Bool
  cityMatched : Bool
deriving DecidableEq

/-- Score one input record against one reference composite address:
province stage always runs; the city stage runs only if the province
matched; the district stage runs only if the city matched. -/
def scoreCandidate (j : JunboAddr) (i : OperAddressInput) : Cand :=
  let p := provinceStage j i
  match p.matched with
  | false => ⟨p.add, p.method, false, false, false, false⟩
  | true =>
    let cs := cityStage j i p.method
    match cs.matched with
    | false => ⟨p.add + cs.add, cs.method, false, false, true, false⟩
    | true =>
      let d := districtStage j i cs.method
      ⟨p.add + cs.add + d.add, d.method, d.dExact, d.dFuzzy, true, true⟩

/-! ## Candidate selection -/

/-- The reverse-match result for one reference address
(`matched` / `matchScore` / `matchMethod` / `confidence`). -/
structure RevMatch where
  matched : Option OperAddressInput
  matchScore : ℚ
  matchMethod : Method
  confidence : Confidence
deriving DecidableEq

/-- Confidence banding: ≥ 0.9 high, ≥ 0.6 medium, > 0 low, else none. -/
def confidenceOf (s : ℚ) : Confidence :=
  if 9/10 ≤ s then Confidence.high
  else if 6/10 ≤ s then Confidence.medium
  else if 0 < s then Confidence.low
  else Confidence.none

/-- The saved candidates: every input scored, keeping those with a
score above zero, paired with their scoring record. -/
def scoredCandidates (j : JunboAddr) (cands : List OperAddressInput) :
    List (OperAddressInput × Cand) :=
  (cands.map (fun i => (i, scoreCandidate j i))).filter
    (fun p => decide (0 < p.2.score))

/-- The `reduce((prev, curr) => curr.score > prev.score ? curr : prev)`
selection: the first candidate of maximal score. -/
def pickBest : List (OperAddressInput × Cand) → Option (OperAddressInput × Cand)
  | [] => Option.none
  | h :: t =>
    Option.some (t.foldl (fun prev curr =>
      if prev.2.score < curr.2.score then curr else prev) h)

/-- `matchOperAddressFromJunboOptimized`: score every candidate, prefer
the group with `districtExactMatch` (highest score within it), otherwise
take the highest-scoring candidate overall. -/
def matchOperAddressFromJunboOptimized (j : JunboAddr)
    (cands : List OperAddressInput) : RevMatch :=
  let cs := scoredCandidates j cands
  let ex := cs.filter (fun p => p.2.dExact)
  match (match ex with | [] => pickBest cs | _ :: _ => pickBest ex) with
  | Option.some b => ⟨Option.some b.1, b.2.score, b.2.method, confidenceOf b.2.score⟩
  | Option.none => ⟨Option.none, 0, Method.none, confidenceOf 0⟩

/-! ## Input multi-index and candidate pruning (`getCandidateInputs`) -/

/-- The list stored under province code `k` in the by-province-code map
(records pushed in input order when the code field is non-empty). -/
def byProvinceCode (inputs : List OperAddressInput) (k : String) :
    List OperAddressInput :=
  inputs.filter (fun i => decide (i.provCode ≠ "" ∧ i.provCode = k))

/-- The list stored under city code `k` in the by-city-code map. -/
def byCityCode (inputs : List OperAddressInput) (k : String) :
    List OperAddressInput :=
  inputs.filter (fun i => decide (i.cityCodeIn ≠ "" ∧ i.cityCodeIn = k))

/-- The list stored under district code `k` in the by-district-code map. -/
def byDistrictCode (inputs : List OperAddressInput) (k : String) :
    List OperAddressInput :=
  inputs.filter (fun i => decide (i.distCode ≠ "" ∧ i.distCode = k))

/-- The list stored under normalized province name `k` (records pushed
when the name field and its normalization are non-empty). -/
def byProvinceName (inputs : List OperAddressInput) (k : String) :
    List OperAddressInput :=
  inputs.filter (fun i => decide (i.provName ≠ "" ∧
    normalizeName i.provName ≠ "" ∧ normalizeName i.provName = k))

/-- The list stored under normalized city name `k`. -/
def byCityName (inputs : List OperAddressInput) (k : String) :
    List OperAddressInput :=
  inputs.filter (fun i => decide (i.cityNameIn ≠ "" ∧
    normalizeName i.cityNameIn ≠ "" ∧ normalizeName i.cityNameIn = k))

/-- The list stored under normalized district name `k`. -/
def byDistrictName (inputs : List OperAddressInput) (k : String) :
    List OperAddressInput :=
  inputs.filter (fun i => decide (i.distName ≠ "" ∧
    normalizeName i.distName ≠ "" ∧ normalizeName i.distName = k))

/-- Keep the first occurrence of each element (JS `Set` insertion
semantics over the concatenated probe lists). -/
def dedupFirst {α : Type} [DecidableEq α] : List α → List α
  | [] => []
  | x :: xs => x :: dedupFirst (xs.filter (fun y => decide (y ≠ x)))
termination_by l => l.length
decreasing_by
  simp only [List.length_cons]
  exact Nat.lt_succ_of_le (List.length_filter_le _ _)

/-- `getCandidateInputs`: probe the three code indexes; if fewer than 10
candidates were gathered, additionally probe the three normalized-name
indexes; the candidate set keeps first-insertion order. -/
def getCandidateInputs (j : JunboAddr) (inputs : List OperAddressInput) :
    List OperAddressInput :=
  let distC := if j.districtCode ≠ "" then byDistrictCode inputs j.districtCode else []
  let cityC := if j.cityCode ≠ "" then byCityCode inputs j.cityCode else []
  let provC := if j.provinceCode ≠ "" then byProvinceCode inputs j.provinceCode else []
  let codeCands := dedupFirst (distC ++ cityC ++ provC)
  if codeCands.length < 10 then
    let nd := normalizeName j.districtName
    let nc := normalizeName j.cityName
    let np := normalizeName j.provinceName
    let dN := if nd ≠ "" then byDistrictName inputs nd else []
    let cN := if nc ≠ "" then byCityName inputs nc else []
    let pN := if np ≠ "" then byProvinceName inputs np else []
    dedupFirst (distC ++ cityC ++ provC ++ dN ++ cN ++ pN)
  else codeCands

/-! ## Single-address matching (`matchSingleJunboAddress`) -/

/-- The hyphen-joined full code key of a reference composite address. -/
def codeKey (j : JunboAddr) : String :=
  j.provinceCode ++ "-" ++ j.cityCode ++ "-" ++ j.districtCode

/-- The hyphen-joined full code key of an input record. -/
def inputKey (i : OperAddressInput) : String :=
  i.provCode ++ "-" ++ i.cityCodeIn ++ "-" ++ i.distCode

/-- Lookup in the full-code-tuple map `operInputsByCode`: the map is
populated (overwriting) from records with all three codes non-empty, so
a lookup returns the last such record whose key matches. -/
def byCodeLookup (inputs : List OperAddressInput) (k : String) :
    Option OperAddressInput :=
  (inputs.filter (fun i => decide (i.provCode ≠ "" ∧ i.cityCodeIn ≠ "" ∧
    i.distCode ≠ "" ∧ inputKey i = k))).getLast?

/-- The flattened output record for one reference address
(`OutputAddressData`). -/
structure OutputAddressData where
  junbo_province_name : String
  oper_province_name : String
  oper_province_code : String
  junbo_city_name : String
  oper_city_name : String
  oper_city_code : String
  junbo_district_name : String
  oper_district_name : String
  oper_district_code : String
  match_score : ℚ
  match_method : Method
  confidence : Confidence
deriving DecidableEq

/-- One entry of the batch result (`AddressMatchResult`). -/
structure AddressMatchResult where
  input : OperAddressInput
  output : OutputAddressData
  needsConfirmation : Bool
deriving DecidableEq

/-- `matchSingleJunboAddress`: first try the O(1) exact lookup by the
full code key (short-circuiting with score 1.0 / `code` / `high`),
otherwise run the staged matcher over the pruned candidate set; then
flatten into the output record (empty strings for an absent match). -/
def matchSingleJunboAddress (j : JunboAddr) (inputs : List OperAddressInput) :
    AddressMatchResult :=
  let mr : RevMatch :=
    match byCodeLookup inputs (codeKey j) with
    | Option.some i => ⟨Option.some i, 1, Method.code, Confidence.high⟩
    | Option.none =>
        matchOperAddressFromJunboOptimized j (getCandidateInputs j inputs)
  let opn := (mr.matched.map (fun i => i.provName)).getD ""
  let opc := (mr.matched.map (fun i => i.provCode)).getD ""
  let ocn := (mr.matched.map (fun i => i.cityNameIn)).getD ""
  let occ := (mr.matched.map (fun i => i.cityCodeIn)).getD ""
  let odn := (mr.matched.map (fun i => i.distName)).getD ""
  let odc := (mr.matched.map (fun i => i.distCode)).getD ""
  { input := ⟨opn, opc, ocn, occ, odn, odc⟩
    output :=
      { junbo_province_name := j.provinceName
        oper_province_name := opn
        oper_province_code := opc
        junbo_city_name := j.cityName
        oper_city_name := ocn
        oper_city_code := occ
        junbo_district_name := j.districtName
        oper_district_name := odn
        oper_district_code := odc
        match_score := mr.matchScore
        match_method := mr.matchMethod
        confidence := mr.confidence }
    needsConfirmation :=
      decide (mr.confidence = Confidence.low ∨ mr.confidence = Confidence.none) }

/-! ## Batch orchestration (`batchMatch`) -/

/-- Split a list into chunks of size `n + 1` (the source's
`for (i = 0; i < len; i += batchSize) slice(i, i + batchSize)` loop;
`fuel` bounds the recursion and is instantiated with the list length). -/
def chunksGo {α : Type} : Nat → Nat → List α → List (List α)
  | _, _, [] => []
  | 0, _, x :: xs => [x :: xs]
  | fuel + 1, n, x :: xs =>
      (x :: xs).take (n + 1) :: chunksGo fuel n ((x :: xs).drop (n + 1))

/-- Process a list chunk by chunk (chunk size `n + 1`), mapping `f` over
each chunk and appending the chunk results in order. -/
def chunkedMap {α β : Type} (n : Nat) (l : List α) (f : α → β) : List β :=
  (chunksGo l.length n l).foldl (fun acc b => acc ++ b.map f) []

/-- The lexicographic sort key of an output record: reference province
name, then city name, then district name. -/
def outKey (r : AddressMatchResult) : Lex (String × Lex (String × String)) :=
  toLex (r.output.junbo_province_name,
    toLex (r.output.junbo_city_name, r.output.junbo_district_name))

/-- The comparator of the final sort: lexicographic on the reference
(province, city, district) name triple. -/
def resultLe (a b : AddressMatchResult) : Prop := outKey a ≤ outKey b

instance : DecidableRel resultLe :=
  fun a b => inferInstanceAs (Decidable (outKey a ≤ outKey b))

instance : IsTotal AddressMatchResult resultLe :=
  ⟨fun a b => le_total (outKey a) (outKey b)⟩

instance : IsTrans AddressMatchResult resultLe :=
  ⟨fun _ _ _ hab hbc => le_trans hab hbc⟩

/-- The final deterministic sort of the batch results. -/
def sortResults (l : List AddressMatchResult) : List AddressMatchResult :=
  l.insertionSort resultLe

/-- `batchMatch` with an arbitrary chunk size `n + 1`: enumerate all
reference composite addresses, match each against the input records in
chunks, then sort by reference province/city/district name. -/
def batchMatchWith (n : Nat) (c : Catalog) (inputs : List OperAddressInput) :
    List AddressMatchResult :=
  sortResults (chunkedMap n (generateAllJunboAddresses c)
    (fun j => matchSingleJunboAddress j inputs))

/-- `batchMatch`: the source uses chunk size 100. -/
def batchMatch (c : Catalog) (inputs : List OperAddressInput) :
    List AddressMatchResult :=
  batchMatchWith 99 c inputs

/-! ## Concrete data for witnesses and counterexamples -/

/-- Test catalog: 福建省 → 厦门市 → 思明区 (the spec's scenario). -/
def cat1w : Catalog :=
  ⟨[("0000", [("1001", JVal.str "福建省")]),
    ("1001", [("2001", JVal.str "厦门市")]),
    ("2001", [("3007", JVal.str "思明区")])]⟩

/-- The single composite address of `cat1w`. -/
def j1w : JunboAddr := ⟨"1001", "福建省", "2001", "厦门市", "3007", "思明区"⟩

/-- An input record carrying the full code tuple of `j1w`. -/
def i1w : OperAddressInput := ⟨"福建", "1001", "厦门", "2001", "思明", "3007"⟩

/-- Reference address for the gating witness. -/
def j3w : JunboAddr := ⟨"P1", "北京", "C1", "北京", "D1", "东城"⟩

/-- Input record matching `j3w` exactly by names. -/
def i3w : OperAddressInput := ⟨"北京", "", "北京", "", "东城", ""⟩

/-- Reference address for the district-preference witness. -/
def j4w : JunboAddr := ⟨"P1", "广东", "C1", "广州", "D1", "天河"⟩

/-- Candidate with an exact district match. -/
def a4w : OperAddressInput := ⟨"广东", "", "广州", "", "天河", ""⟩

/-- Candidate scoring above zero without a district match. -/
def b4w : OperAddressInput := ⟨"广东", "", "", "", "", ""⟩

/-- Reference address whose province name is `"abcd"` (no strippable
suffix, so normalization is the identity on it). -/
def j5w : JunboAddr := ⟨"PC", "abcd", "CC", "x", "DC", "y"⟩

/-- Input record whose province name `"abxd"` is at Levenshtein distance
1 from `"abcd"`, giving similarity 3/4 — accepted by the 0.7 threshold
but below the 0.8 the spec states. -/
def i5w : OperAddressInput := ⟨"abxd", "", "", "", "", ""⟩

/-- Catalog whose city code `"2-3"` contains the key separator, so the
hyphen-joined full-code key of its single leaf is `"1-2-3-4"`. -/
def cat9x : Catalog :=
  ⟨[("0000", [("1", JVal.str "P")]),
    ("1", [("2-3", JVal.str "C")]),
    ("2-3", [("4", JVal.str "D")])]⟩

/-- The single composite address of `cat9x` (key `"1-2-3-4"`). -/
def j9x : JunboAddr := ⟨"1", "P", "2-3", "C", "4", "D"⟩

/-- Input record with codes `"1-2"`, `"3"`, `"4"` (key also
`"1-2-3-4"`) and empty names: it collides with the key of `j9x` while
scoring zero against it in the staged scorer. -/
def i9x : OperAddressInput := ⟨"", "1-2", "", "3", "", "4"⟩

/-- Hyphen-free one-leaf catalog for the no-candidate witness. -/
def cat9w : Catalog :=
  ⟨[("0000", [("1", JVal.str "北京")]),
    ("1", [("2", JVal.str "北京市")]),
    ("2", [("3", JVal.str "东城区")])]⟩

/-- The single composite address of `cat9w`. -/
def j9w : JunboAddr := ⟨"1", "北京", "2", "北京市", "3", "东城区"⟩

/-- An input record unrelated to `cat9w` (scores zero against `j9w`). -/
def i9w : OperAddressInput := ⟨"上海", "9", "上海", "9", "黄浦", "9"⟩

/-! # Theorems -/

/-! ## List helpers -/

theorem mem_of_getLast?' {α : Type} :
    ∀ {l : List α} {a : α}, l.getLast? = Option.some a → a ∈ l := by
  intro l
  induction l with
  | nil => intro a h; simp at h
  | cons x xs ih =>
    intro a h
    cases xs with
    | nil => simp at h; simp [h]
    | cons y ys =>
      rw [List.getLast?_cons_cons] at h
      exact List.mem_cons_of_mem _ (ih h)

theorem dropWhile_eq_cons_head_false {p : Char → Bool} :
    ∀ {l : List Char} {a : Char} {t : List Char},
      l.dropWhile p = a :: t → p a = false := by
  intro l
  induction l with
  | nil => intro a t h; simp [List.dropWhile] at h
  | cons x xs ih =>
    intro a t h
    by_cases hx : p x = true
    · rw [List.dropWhile_cons, if_pos hx] at h; exact ih h
    · rw [List.dropWhile_cons, if_neg hx] at h
      cases h
      simpa using hx

theorem dropWhile_dropWhile (p : Char → Bool) (l : List Char) :
    (l.dropWhile p).dropWhile p = l.dropWhile p := by
  cases h : l.dropWhile p with
  | nil => simp
  | cons a t =>
    rw [List.dropWhile_cons, if_neg (by simp [dropWhile_eq_cons_head_false h])]

theorem dropWhile_isSuffix (p : Char → Bool) :
    ∀ (l : List Char), l.dropWhile p <:+ l := by
  intro l
  induction l with
  | nil => simp
  | cons x xs ih =>
    rw [List.dropWhile_cons]
    by_cases hx : p x = true
    · rw [if_pos hx]; exact ih.trans (List.suffix_cons x xs)
    · rw [if_neg hx]

theorem trimChars_idem (l : List Char) : trimChars (trimChars l) = trimChars l := by
  have hdw : (trimChars l).dropWhile isJsWs = trimChars l := by
    cases hc : trimChars l with
    | nil => simp
    | cons b t =>
      have hpre : trimChars l <+: l.dropWhile isJsWs := by
        have hsuf : (l.dropWhile isJsWs).reverse.dropWhile isJsWs <:+
            (l.dropWhile isJsWs).reverse := dropWhile_isSuffix _ _
        have h2 := List.reverse_prefix.mpr hsuf
        simpa [trimChars] using h2
      obtain ⟨u, hu⟩ := hpre
      rw [hc] at hu
      have hdweq : l.dropWhile isJsWs = b :: (t ++ u) := by rw [← hu]; rfl
      have hb : isJsWs b = false := dropWhile_eq_cons_head_false hdweq
      rw [List.dropWhile_cons, if_neg (by simp [hb])]
  calc trimChars (trimChars l)
      = ((trimChars l).reverse.dropWhile isJsWs).reverse := by
        rw [trimChars, hdw]
    _ = trimChars l := by
        rw [show (trimChars l).reverse =
              (l.dropWhile isJsWs).reverse.dropWhile isJsWs by
            simp [trimChars]]
        rw [dropWhile_dropWhile]
        rfl

/-! ## Normalization lemmas -/

theorem stripTail_of_not_suffix {l suf : List Char}
    (h : suf.isSuffixOf l = false) : stripTail l suf = l := by
  unfold stripTail
  rw [if_neg (by simp [h])]

theorem foldl_stripTail_id :
    ∀ (sufs : List String) (l : List Char),
      (∀ suf ∈ sufs, suf.data.isSuffixOf l = false) →
      sufs.foldl (fun acc suf => stripTail acc suf.data) l = l := by
  intro sufs
  induction sufs with
  | nil => intro l _; rfl
  | cons s ss ih =>
    intro l h
    rw [List.foldl_cons, stripTail_of_not_suffix (h s (by simp))]
    exact ih l (fun suf hs => h suf (by simp [hs]))

/-- C8 (amended): `normalizeName` is idempotent on every string whose
normalized form does not itself end with one of the strippable suffix
strings; a single application can otherwise leave one more strippable
suffix exposed. -/
theorem normalizeName_idem_of_no_strippable_suffix (s : String)
    (h : ∀ suf ∈ suffixStrs, suf.data.isSuffixOf (normalizeName s).data = false) :
    normalizeName (normalizeName s) = normalizeName s := by
  obtain ⟨y, hy⟩ : ∃ y, normalizeName s = y := ⟨_, rfl⟩
  rw [hy] at h ⊢
  have hyd : y.data =
      trimChars (suffixStrs.foldl (fun acc suf => stripTail acc suf.data) s.data) := by
    rw [← hy, normalizeName]
  rw [normalizeName, foldl_stripTail_id _ _ h, hyd, trimChars_idem, ← hy, normalizeName]

/-- C8 (counterexample): normalization is not idempotent as stated — on
`"市市"` one application strips a single `市`, and a second application
strips the newly exposed one. -/
theorem normalizeName_not_idempotent :
    normalizeName (normalizeName "市市") ≠ normalizeName "市市" := by decide

/-- C8 (witness): the amended idempotence theorem applied at `"福建省"`. -/
theorem normalizeName_idem_witness :
    (∀ suf ∈ suffixStrs, suf.data.isSuffixOf (normalizeName "福建省").data = false) ∧
    normalizeName (normalizeName "福建省") = normalizeName "福建省" :=
  ⟨by decide, normalizeName_idem_of_no_strippable_suffix "福建省" (by decide)⟩

/-! ## Similarity lemmas (C10 and C6) -/

/-- C10: for non-empty strings whose normalized forms are equal — raw
equal or not, and in particular when both normalize to the empty string,
as with the pure-suffix names `"省"` and `"市"` — `similarity` returns
exactly 1. -/
theorem similarity_normalized_equal_scores_one (s1 s2 : String)
    (h1 : s1 ≠ "") (h2 : s2 ≠ "")
    (h : normalizeName s1 = normalizeName s2) :
    similarity s1 s2 = 1 := by
  simp only [similarity]
  split_ifs with g1 <;>
    first
      | rfl
      | exact absurd g1 (not_or.mpr ⟨h1, h2⟩)

/-- C10 (witness): two entirely different pure-suffix names score 1. -/
theorem similarity_normalized_equal_scores_one_witness :
    ("省" : String) ≠ "" ∧ ("市" : String) ≠ "" ∧
    normalizeName "省" = normalizeName "市" ∧ similarity "省" "市" = 1 :=
  ⟨by decide, by decide, by decide,
    similarity_normalized_equal_scores_one "省" "市" (by decide) (by decide) (by decide)⟩

/-- C6: for non-empty, unequal strings with unequal normalized forms one
of which contains the other: prefix containment with `minLen ≥ 2` scores
`min(0.95, minLen/maxLen·0.95 + 0.1)`; general containment with
`minLen ≥ 2` scores `min(0.9, minLen/maxLen·0.9 + 0.05)`; below the
length floor the score is `minLen/maxLen·0.8`, where `minLen`/`maxLen`
are the lengths of the normalized forms. -/
theorem similarity_containment_formulas (s1 s2 : String)
    (h1 : s1 ≠ "") (h2 : s2 ≠ "") (hne : s1 ≠ s2)
    (hnn : normalizeName s1 ≠ normalizeName s2)
    (hcont : strContains (normalizeName s1) (normalizeName s2) = true ∨
             strContains (normalizeName s2) (normalizeName s1) = true) :
    (2 ≤ min (normalizeName s1).length (normalizeName s2).length →
      (strStarts (normalizeName s1) (normalizeName s2) = true ∨
       strStarts (normalizeName s2) (normalizeName s1) = true) →
      similarity s1 s2 =
        min (95/100) (((min (normalizeName s1).length (normalizeName s2).length : ℕ) : ℚ) /
          ((max (normalizeName s1).length (normalizeName s2).length : ℕ) : ℚ) * (95/100) + 1/10)) ∧
    (2 ≤ min (normalizeName s1).length (normalizeName s2).length →
      ¬ (strStarts (normalizeName s1) (normalizeName s2) = true ∨
         strStarts (normalizeName s2) (normalizeName s1) = true) →
      similarity s1 s2 =
        min (9/10) (((min (normalizeName s1).length (normalizeName s2).length : ℕ) : ℚ) /
          ((max (normalizeName s1).length (normalizeName s2).length : ℕ) : ℚ) * (9/10) + 1/20)) ∧
    (min (normalizeName s1).length (normalizeName s2).length < 2 →
      similarity s1 s2 =
        ((min (normalizeName s1).length (normalizeName s2).length : ℕ) : ℚ) /
          ((max (normalizeName s1).length (normalizeName s2).length : ℕ) : ℚ) * (8/10)) := by
  simp only [similarity]
  split_ifs with g1 g5 g6
  · exact ⟨fun hm hp => absurd g1 (not_or.mpr ⟨h1, h2⟩),
      fun hm hp => absurd g1 (not_or.mpr ⟨h1, h2⟩),
      fun hm => absurd g1 (not_or.mpr ⟨h1, h2⟩)⟩
  · exact ⟨fun hm hp => rfl, fun hm hp => absurd g6 hp, fun hm => by omega⟩
  · exact ⟨fun hm hp => absurd hp g6, fun hm hp => rfl, fun hm => by omega⟩
  · exact ⟨fun hm hp => absurd hm g5, fun hm hp => absurd hm g5, fun hm => rfl⟩

/-- C6 (witness): the prefix-containment case at `"abcd"` / `"ab"`. -/
theorem similarity_containment_formulas_witness :
    (2 ≤ min (normalizeName "abcd").length (normalizeName "ab").length ∧
     strStarts (normalizeName "abcd") (normalizeName "ab") = true) ∧
    similarity "abcd" "ab" =
      min (95/100) (((min (normalizeName "abcd").length (normalizeName "ab").length : ℕ) : ℚ) /
        ((max (normalizeName "abcd").length (normalizeName "ab").length : ℕ) : ℚ) * (95/100) + 1/10) :=
  ⟨by decide,
    (similarity_containment_formulas "abcd" "ab" (by decide) (by decide) (by decide)
      (by decide) (by decide)).1 (by decide) (by decide)⟩

/-! ## Staged-scoring lemmas (C3 and C5) -/

theorem provinceStage_add_of_not_matched (j : JunboAddr) (i : OperAddressInput)
    (h : (provinceStage j i).matched = false) : (provinceStage j i).add = 0 := by
  simp only [provinceStage] at h ⊢
  split_ifs at h ⊢ <;> simp_all

/-- C3: in the per-candidate staged scoring, the city level is attempted
only when the province level matched and the district level only when the
city level matched: a candidate with a set district flag has both parent
flags set, and a candidate whose province did not match scores zero. -/
theorem staged_scoring_containment_gating (j : JunboAddr) (i : OperAddressInput) :
    ((scoreCandidate j i).cityMatched = true → (scoreCandidate j i).provMatched = true) ∧
    (((scoreCandidate j i).dExact = true ∨ (scoreCandidate j i).dFuzzy = true) →
      (scoreCandidate j i).cityMatched = true ∧ (scoreCandidate j i).provMatched = true) ∧
    ((scoreCandidate j i).provMatched = false → (scoreCandidate j i).score = 0) := by
  simp only [scoreCandidate]
  cases hp : (provinceStage j i).matched with
  | false =>
    refine ⟨by simp, by simp, fun _ => ?_⟩
    simpa using provinceStage_add_of_not_matched j i hp
  | true =>
    cases hc : (cityStage j i (provinceStage j i).method).matched with
    | false => exact ⟨by simp, by simp, by simp⟩
    | true => exact ⟨by simp, by simp, by simp⟩

/-- C3 (witness): the gating theorem applied at an exact full match. -/
theorem staged_scoring_containment_gating_witness :
    ((scoreCandidate j3w i3w).dExact = true ∨ (scoreCandidate j3w i3w).dFuzzy = true) ∧
    ((scoreCandidate j3w i3w).cityMatched = true ∧
     (scoreCandidate j3w i3w).provMatched = true) :=
  ⟨by with_unfolding_all decide,
    (staged_scoring_containment_gating j3w i3w).2.1 (by with_unfolding_all decide)⟩

/-- C5 (counterexample): at the province level of the staged batch
matcher, a fuzzy candidate with similarity 3/4 — below the 0.8 threshold
the claim states — is accepted (the code's threshold is 0.7). -/
theorem province_fuzzy_accepted_below_spec_threshold :
    (provinceStage j5w i5w).matched = true ∧
    (provinceStage j5w i5w).method = Method.fuzzy ∧
    similarity (normalizeName i5w.provName) (normalizeName j5w.provinceName) = 3/4 ∧
    ¬ (8/10 ≤ (3/4 : ℚ)) ∧
    (provinceStage j5w i5w).add = 1/4 * (3/4) := by
  with_unfolding_all decide

/-- C5 (amended): a level of the staged batch matcher matches only via a
code match, a raw-name match, a normalized-name match, a containment
branch (city/district only), or a similarity-scored fuzzy match at the
actual per-level acceptance thresholds: 0.7 for province, 0.7 for city
and 0.85 for district. -/
theorem staged_fuzzy_acceptance_thresholds (j : JunboAddr) (i : OperAddressInput)
    (m m' : Method) :
    ((provinceStage j i).matched = true →
      (i.provCode ≠ "" ∧ i.provCode = j.provinceCode) ∨
      (i.provName ≠ "" ∧ i.provName = j.provinceName) ∨
      normalizeName i.provName = normalizeName j.provinceName ∨
      7/10 ≤ similarity (normalizeName i.provName) (normalizeName j.provinceName)) ∧
    ((cityStage j i m).matched = true →
      (i.cityCodeIn ≠ "" ∧ i.cityCodeIn = j.cityCode) ∨
      (i.cityNameIn ≠ "" ∧ i.cityNameIn = j.cityName) ∨
      normalizeName i.cityNameIn = normalizeName j.cityName ∨
      ((strContains (normalizeName i.cityNameIn) (normalizeName j.cityName) = true ∨
        strContains (normalizeName j.cityName) (normalizeName i.cityNameIn) = true) ∧
       2 ≤ min (normalizeName i.cityNameIn).length (normalizeName j.cityName).length) ∨
      7/10 ≤ similarity (normalizeName i.cityNameIn) (normalizeName j.cityName)) ∧
    (((districtStage j i m').dExact = true ∨ (districtStage j i m').dFuzzy = true) →
      (i.distCode ≠ "" ∧ i.distCode = j.districtCode) ∨
      (i.distName ≠ "" ∧ i.distName = j.districtName) ∨
      normalizeName i.distName = normalizeName j.districtName ∨
      (stripDistrictTail (normalizeName i.distName) =
         stripDistrictTail (normalizeName j.districtName) ∨
       (stripDistrictTail (normalizeName i.distName) ≠ "" ∧
        stripDistrictTail (normalizeName j.districtName) ≠ "" ∧
        (strContains (stripDistrictTail (normalizeName i.distName))
           (stripDistrictTail (normalizeName j.districtName)) = true ∨
         strContains (stripDistrictTail (normalizeName j.districtName))
           (stripDistrictTail (normalizeName i.distName)) = true))) ∨
      17/20 ≤ similarity (normalizeName i.distName) (normalizeName j.districtName)) := by
  refine ⟨?_, ?_, ?_⟩
  · simp only [provinceStage]
    split_ifs with g1 g2 g3 g4 g5 g6
    · exact fun _ => Or.inl g1
    · exact fun _ => Or.inr (Or.inl g2)
    · exact fun _ => Or.inr (Or.inr (Or.inl g4))
    · exact fun _ => Or.inr (Or.inr (Or.inr g6))
    · exact fun hm => absurd hm (by simp)
    · exact fun hm => absurd hm (by simp)
    · exact fun hm => absurd hm (by simp)
  · simp only [cityStage]
    split_ifs with g1 g2 g3 g4 g5 g6 g7 g8 g9
    · exact fun _ => Or.inl g1
    · exact fun _ => Or.inr (Or.inl g2)
    · exact fun _ => Or.inr (Or.inr (Or.inl g4))
    · exact fun _ => Or.inr (Or.inr (Or.inr (Or.inl ⟨g6, g7⟩)))
    · exact fun _ => Or.inr (Or.inr (Or.inr (Or.inl ⟨g6, g7⟩)))
    · exact fun hm => absurd hm (by simp)
    · exact fun _ => Or.inr (Or.inr (Or.inr (Or.inr g9)))
    · exact fun hm => absurd hm (by simp)
    · exact fun hm => absurd hm (by simp)
    · exact fun hm => absurd hm (by simp)
  · simp only [districtStage]
    split_ifs with g1 g2 g3 g4 g5 g6 g7
    · exact fun _ => Or.inl g1
    · exact fun _ => Or.inr (Or.inl g2)
    · exact fun _ => Or.inr (Or.inr (Or.inl g4))
    · exact fun _ => Or.inr (Or.inr (Or.inr (Or.inl g6)))
    · exact fun _ => Or.inr (Or.inr (Or.inr (Or.inr g7)))
    · exact fun hm => absurd hm (by simp)
    · exact fun hm => absurd hm (by simp)
    · exact fun hm => absurd hm (by simp)

/-- C5 (witness): the amended province threshold applied at the 3/4
fuzzy match of `j5w`/`i5w`. -/
theorem staged_fuzzy_acceptance_thresholds_witness :
    (provinceStage j5w i5w).matched = true ∧
    ((i5w.provCode ≠ "" ∧ i5w.provCode = j5w.provinceCode) ∨
     (i5w.provName ≠ "" ∧ i5w.provName = j5w.provinceName) ∨
     normalizeName i5w.provName = normalizeName j5w.provinceName ∨
     7/10 ≤ similarity (normalizeName i5w.provName) (normalizeName j5w.provinceName)) :=
  ⟨by with_unfolding_all decide,
    (staged_fuzzy_acceptance_thresholds j5w i5w Method.none Method.none).1
      (by with_unfolding_all decide)⟩

/-! ## Batch orchestration lemmas -/

theorem chunksGo_join {α : Type} :
    ∀ (fuel n : Nat) (l : List α), (chunksGo fuel n l).flatten = l := by
  intro fuel
  induction fuel with
  | zero =>
    intro n l
    cases l with
    | nil => rfl
    | cons x xs => simp [chunksGo]
  | succ fuel ih =>
    intro n l
    cases l with
    | nil => rfl
    | cons x xs =>
      simp only [chunksGo, List.flatten]
      rw [ih]
      exact List.take_append_drop _ _

theorem foldl_append_map {α β : Type} (f : α → β) :
    ∀ (cs : List (List α)) (acc : List β),
      cs.foldl (fun a b => a ++ b.map f) acc =
        acc ++ (cs.map (fun b => b.map f)).flatten := by
  intro cs
  induction cs with
  | nil => intro acc; simp
  | cons c cs ih =>
    intro acc
    rw [List.foldl_cons, ih]
    simp [List.append_assoc]

theorem join_map_map {α β : Type} (f : α → β) :
    ∀ (cs : List (List α)), (cs.map (fun b => b.map f)).flatten = cs.flatten.map f := by
  intro cs
  induction cs with
  | nil => rfl
  | cons c cs ih =>
    rw [List.map_cons, List.flatten_cons, List.flatten_cons, List.map_append, ih]

theorem chunkedMap_eq_map {α β : Type} (n : Nat) (l : List α) (f : α → β) :
    chunkedMap n l f = l.map f := by
  unfold chunkedMap
  rw [foldl_append_map, join_map_map, chunksGo_join]
  simp

theorem batchMatchWith_eq_sort (n : Nat) (c : Catalog) (inputs : List OperAddressInput) :
    batchMatchWith n c inputs =
      sortResults ((generateAllJunboAddresses c).map
        (fun j => matchSingleJunboAddress j inputs)) := by
  unfold batchMatchWith
  rw [chunkedMap_eq_map]

theorem batchMatch_perm (c : Catalog) (inputs : List OperAddressInput) :
    (batchMatch c inputs).Perm ((generateAllJunboAddresses c).map
      (fun j => matchSingleJunboAddress j inputs)) := by
  show (batchMatchWith 99 c inputs).Perm _
  rw [batchMatchWith_eq_sort]
  exact List.perm_insertionSort resultLe _

theorem matchSingle_names (j : JunboAddr) (inputs : List OperAddressInput) :
    (matchSingleJunboAddress j inputs).output.junbo_province_name = j.provinceName ∧
    (matchSingleJunboAddress j inputs).output.junbo_city_name = j.cityName ∧
    (matchSingleJunboAddress j inputs).output.junbo_district_name = j.districtName := by
  unfold matchSingleJunboAddress
  cases byCodeLookup inputs (codeKey j) <;> exact ⟨rfl, rfl, rfl⟩

/-- C2: the batch output has exactly one record per (province, city,
district) leaf of the catalog walk: its length equals the number of
leaves, and the multiset of reference name triples of the output equals
that of the leaves. -/
theorem batchMatch_completeness (c : Catalog) (inputs : List OperAddressInput) :
    (batchMatch c inputs).length = (generateAllJunboAddresses c).length ∧
    List.Perm ((batchMatch c inputs).map (fun r =>
        (r.output.junbo_province_name, r.output.junbo_city_name,
         r.output.junbo_district_name)))
      ((generateAllJunboAddresses c).map
        (fun j => (j.provinceName, j.cityName, j.districtName))) := by
  have hperm := batchMatch_perm c inputs
  constructor
  · rw [hperm.length_eq, List.length_map]
  · refine (hperm.map _).trans ?_
    rw [List.map_map]
    apply List.Perm.of_eq
    apply List.map_congr_left
    intro j _
    obtain ⟨hp, hc, hd⟩ := matchSingle_names j inputs
    simp [Function.comp, hp, hc, hd]

/-- C7: the batch output is independent of the internal chunk size, and
is sorted lexicographically by the reference (province, city, district)
name triple; it is a permutation of the per-leaf match results, so the
order does not depend on the internal processing order. -/
theorem batchMatch_deterministic_sorted_order (n m : Nat) (c : Catalog)
    (inputs : List OperAddressInput) :
    batchMatchWith n c inputs = batchMatchWith m c inputs ∧
    List.Sorted resultLe (batchMatch c inputs) ∧
    (batchMatch c inputs).Perm ((generateAllJunboAddresses c).map
      (fun j => matchSingleJunboAddress j inputs)) := by
  refine ⟨?_, ?_, ?_⟩
  · rw [batchMatchWith_eq_sort, batchMatchWith_eq_sort]
  · show List.Sorted resultLe (batchMatchWith 99 c inputs)
    rw [batchMatchWith_eq_sort]
    exact List.sorted_insertionSort resultLe _
  · show (batchMatchWith 99 c inputs).Perm _
    rw [batchMatchWith_eq_sort]
    exact List.perm_insertionSort resultLe _

/-! ## Selection lemmas (C4) -/

theorem foldl_pick_mem (t : List (OperAddressInput × Cand)) :
    ∀ h0 : OperAddressInput × Cand,
      (t.foldl (fun prev curr =>
        if prev.2.score < curr.2.score then curr else prev) h0) = h0 ∨
      (t.foldl (fun prev curr =>
        if prev.2.score < curr.2.score then curr else prev) h0) ∈ t := by
  induction t with
  | nil => intro h0; left; rfl
  | cons c t ih =>
    intro h0
    rw [List.foldl_cons]
    rcases ih (if h0.2.score < c.2.score then c else h0) with h | h
    · rw [h]
      by_cases hs : h0.2.score < c.2.score
      · right; rw [if_pos hs]; exact List.mem_cons_self c t
      · left; rw [if_neg hs]
    · right; exact List.mem_cons_of_mem _ h

theorem foldl_pick_le (t : List (OperAddressInput × Cand)) :
    ∀ (h0 p : OperAddressInput × Cand), (p = h0 ∨ p ∈ t) →
      p.2.score ≤ (t.foldl (fun prev curr =>
        if prev.2.score < curr.2.score then curr else prev) h0).2.score := by
  induction t with
  | nil =>
    intro h0 p hp
    rcases hp with rfl | hp
    · exact le_refl _
    · simp at hp
  | cons c t ih =>
    intro h0 p hp
    rw [List.foldl_cons]
    have hbase : h0.2.score ≤ (if h0.2.score < c.2.score then c else h0).2.score := by
      by_cases hs : h0.2.score < c.2.score
      · rw [if_pos hs]; exact le_of_lt hs
      · rw [if_neg hs]
    have hcs : c.2.score ≤ (if h0.2.score < c.2.score then c else h0).2.score := by
      by_cases hs : h0.2.score < c.2.score
      · rw [if_pos hs]
      · rw [if_neg hs]; exact le_of_not_lt hs
    rcases hp with rfl | hp
    · exact le_trans hbase (ih _ _ (Or.inl rfl))
    · rcases List.mem_cons.mp hp with rfl | hp
      · exact le_trans hcs (ih _ _ (Or.inl rfl))
      · exact ih _ _ (Or.inr hp)

theorem pickBest_spec (l : List (OperAddressInput × Cand))
    (b : OperAddressInput × Cand) (h : pickBest l = Option.some b) :
    b ∈ l ∧ ∀ p ∈ l, p.2.score ≤ b.2.score := by
  match l with
  | [] => simp [pickBest] at h
  | h0 :: t =>
    simp only [pickBest, Option.some.injEq] at h
    constructor
    · rcases foldl_pick_mem t h0 with he | he
      · rw [← h, he]; exact List.mem_cons_self h0 t
      · rw [← h]; exact List.mem_cons_of_mem _ he
    · intro p hp
      rw [← h]
      exact foldl_pick_le t h0 p (List.mem_cons.mp hp)

/-- C4: among candidates scoring above zero for one reference address,
any candidate with the `districtExactMatch` flag (an exact-or-code
district match) is selected in preference to every candidate without
one, regardless of raw score: if any flagged candidate exists the
selected record is flagged and has the highest score within the flagged
group; otherwise the highest-scoring candidate overall is selected. -/
theorem district_exact_preference (j : JunboAddr) (cands : List OperAddressInput) :
    ((∃ p ∈ scoredCandidates j cands, p.2.dExact = true) →
      ∃ q ∈ scoredCandidates j cands, q.2.dExact = true ∧
        (matchOperAddressFromJunboOptimized j cands).matched = Option.some q.1 ∧
        (matchOperAddressFromJunboOptimized j cands).matchScore = q.2.score ∧
        ∀ p ∈ scoredCandidates j cands, p.2.dExact = true →
          p.2.score ≤ q.2.score) ∧
    (((¬ ∃ p ∈ scoredCandidates j cands, p.2.dExact = true) ∧
        scoredCandidates j cands ≠ []) →
      ∃ q ∈ scoredCandidates j cands,
        (matchOperAddressFromJunboOptimized j cands).matched = Option.some q.1 ∧
        (matchOperAddressFromJunboOptimized j cands).matchScore = q.2.score ∧
        ∀ p ∈ scoredCandidates j cands, p.2.score ≤ q.2.score) := by
  constructor
  · intro ⟨p, hp, hpx⟩
    have hpex : p ∈ (scoredCandidates j cands).filter (fun q => q.2.dExact) :=
      List.mem_filter.mpr ⟨hp, hpx⟩
    simp only [matchOperAddressFromJunboOptimized]
    cases hex : (scoredCandidates j cands).filter (fun q => q.2.dExact) with
    | nil => rw [hex] at hpex; simp at hpex
    | cons e0 et =>
      obtain ⟨b, hb⟩ : ∃ b, pickBest (e0 :: et) = Option.some b := ⟨_, rfl⟩
      obtain ⟨hbmem', hbmax⟩ := pickBest_spec _ _ hb
      have hbmem : b ∈ (scoredCandidates j cands).filter (fun q => q.2.dExact) := by
        rw [hex]; exact hbmem'
      simp only [hb]
      refine ⟨b, (List.mem_filter.mp hbmem).1, (List.mem_filter.mp hbmem).2,
        rfl, rfl, ?_⟩
      intro q hq hqx
      apply hbmax
      rw [← hex]
      exact List.mem_filter.mpr ⟨hq, hqx⟩
  · intro ⟨hno, hne⟩
    have hex : (scoredCandidates j cands).filter (fun q => q.2.dExact) = [] := by
      rw [List.filter_eq_nil_iff]
      intro q hq
      simp only [Bool.not_eq_true]
      cases hqx : q.2.dExact with
      | false => rfl
      | true => exact absurd ⟨q, hq, hqx⟩ hno
    simp only [matchOperAddressFromJunboOptimized]
    rw [hex]
    cases hcs : scoredCandidates j cands with
    | nil => exact absurd hcs hne
    | cons c0 ct =>
      obtain ⟨b, hb⟩ :  ∃ b, pickBest (c0 :: ct) = Option.some b := ⟨_, rfl⟩
      obtain ⟨hbmem, hbmax⟩ := pickBest_spec _ _ hb
      simp only [hb]
      exact ⟨b, hbmem, rfl, rfl, fun p hp => hbmax p hp⟩

/-- C4 (witness): the preference theorem at a two-candidate scenario
with one exact district match. -/
theorem district_exact_preference_witness :
    (∃ p ∈ scoredCandidates j4w [a4w, b4w], p.2.dExact = true) ∧
    (∃ q ∈ scoredCandidates j4w [a4w, b4w], q.2.dExact = true ∧
      (matchOperAddressFromJunboOptimized j4w [a4w, b4w]).matched = Option.some q.1 ∧
      (matchOperAddressFromJunboOptimized j4w [a4w, b4w]).matchScore = q.2.score ∧
      ∀ p ∈ scoredCandidates j4w [a4w, b4w], p.2.dExact = true →
        p.2.score ≤ q.2.score) :=
  ⟨by with_unfolding_all decide,
    (district_exact_preference j4w [a4w, b4w]).1 (by with_unfolding_all decide)⟩

/-! ## Code-match supremacy (C1) -/

/-- C1: whenever some input record carries, verbatim and non-empty, the
full (province, city, district) code tuple of a reference composite
address, `batchMatch` returns for that address an output record with
score 1.0, method `code` and confidence `high`, regardless of any other
candidate's fuzzy score. -/
theorem code_match_supremacy (c : Catalog) (inputs : List OperAddressInput)
    (j : JunboAddr) (i : OperAddressInput)
    (hj : j ∈ generateAllJunboAddresses c) (hi : i ∈ inputs)
    (hp0 : j.provinceCode ≠ "") (hc0 : j.cityCode ≠ "") (hd0 : j.districtCode ≠ "")
    (hp : i.provCode = j.provinceCode) (hc : i.cityCodeIn = j.cityCode)
    (hd : i.distCode = j.districtCode) :
    ∃ r ∈ batchMatch c inputs,
      r.output.junbo_province_name = j.provinceName ∧
      r.output.junbo_city_name = j.cityName ∧
      r.output.junbo_district_name = j.districtName ∧
      r.output.match_score = 1 ∧
      r.output.match_method = Method.code ∧
      r.output.confidence = Confidence.high := by
  have hfil : i ∈ inputs.filter (fun i' => decide (i'.provCode ≠ "" ∧
      i'.cityCodeIn ≠ "" ∧ i'.distCode ≠ "" ∧ inputKey i' = codeKey j)) := by
    refine List.mem_filter.mpr ⟨hi, ?_⟩
    have hkey : inputKey i = codeKey j := by
      unfold inputKey codeKey
      rw [hp, hc, hd]
    simp [hp, hc, hd, hp0, hc0, hd0, hkey]
  obtain ⟨x, hx⟩ : ∃ x, byCodeLookup inputs (codeKey j) = Option.some x := by
    unfold byCodeLookup
    have hne := List.ne_nil_of_mem hfil
    exact ⟨_, List.getLast?_eq_getLast _ hne⟩
  refine ⟨matchSingleJunboAddress j inputs, ?_, ?_⟩
  · exact (batchMatch_perm c inputs).mem_iff.mpr (List.mem_map_of_mem _ hj)
  · simp [matchSingleJunboAddress, hx]

/-- C1 (witness): the supremacy theorem at the spec's scenario catalog. -/
theorem code_match_supremacy_witness :
    j1w ∈ generateAllJunboAddresses cat1w ∧
    (∃ r ∈ batchMatch cat1w [i1w],
      r.output.junbo_province_name = j1w.provinceName ∧
      r.output.junbo_city_name = j1w.cityName ∧
      r.output.junbo_district_name = j1w.districtName ∧
      r.output.match_score = 1 ∧
      r.output.match_method = Method.code ∧
      r.output.confidence = Confidence.high) :=
  ⟨by decide,
    code_match_supremacy cat1w [i1w] j1w i1w (by decide) (by decide) (by decide)
      (by decide) (by decide) (by decide) (by decide) (by decide)⟩

/-! ## String key lemmas (C9) -/

theorem data_append (s t : String) : (s ++ t).data = s.data ++ t.data := by
  cases s; cases t; rfl

theorem data_inj {s t : String} (h : s.data = t.data) : s = t := by
  cases s; cases t; exact congrArg String.mk h

theorem hyphen_data : ("-" : String).data = ['-'] := rfl

theorem codeKey_data (j : JunboAddr) : (codeKey j).data =
    j.provinceCode.data ++ '-' :: (j.cityCode.data ++ '-' :: j.districtCode.data) := by
  unfold codeKey
  simp [data_append, hyphen_data, List.append_assoc]

theorem inputKey_data (i : OperAddressInput) : (inputKey i).data =
    i.provCode.data ++ '-' :: (i.cityCodeIn.data ++ '-' :: i.distCode.data) := by
  unfold inputKey
  simp [data_append, hyphen_data, List.append_assoc]

theorem append_hyphen_inj :
    ∀ (a : List Char) (d r s : List Char), '-' ∉ a → '-' ∉ d →
      a ++ '-' :: r = d ++ '-' :: s → a = d ∧ r = s := by
  intro a
  induction a with
  | nil =>
    intro d r s _ hd h
    cases d with
    | nil => simpa using h
    | cons y ys =>
      rw [List.nil_append, List.cons_append] at h
      injection h with h1 h2
      exact absurd (by rw [← h1]; exact List.mem_cons_self _ _) hd
  | cons x xs ih =>
    intro d r s ha hd h
    cases d with
    | nil =>
      rw [List.nil_append, List.cons_append] at h
      injection h with h1 h2
      exact absurd (by rw [h1]; exact List.mem_cons_self _ _) ha
    | cons y ys =>
      rw [List.cons_append, List.cons_append] at h
      injection h with h1 h2
      obtain ⟨he, hr⟩ := ih ys r s
        (fun hm => ha (List.mem_cons_of_mem _ hm))
        (fun hm => hd (List.mem_cons_of_mem _ hm)) h2
      exact ⟨by rw [h1, he], hr⟩

theorem count_hyphen_parts (da db dc pa pb pc : List Char)
    (hpa : '-' ∉ pa) (hpb : '-' ∉ pb) (hpc : '-' ∉ pc)
    (h : da ++ '-' :: (db ++ '-' :: dc) = pa ++ '-' :: (pb ++ '-' :: pc)) :
    '-' ∉ da ∧ '-' ∉ db ∧ '-' ∉ dc := by
  have hcount := congrArg (List.count '-') h
  simp only [List.count_append, List.count_cons_self] at hcount
  have h1 : pa.count '-' = 0 := List.count_eq_zero.mpr hpa
  have h2 : pb.count '-' = 0 := List.count_eq_zero.mpr hpb
  have h3 : pc.count '-' = 0 := List.count_eq_zero.mpr hpc
  refine ⟨List.count_eq_zero.mp ?_, List.count_eq_zero.mp ?_,
    List.count_eq_zero.mp ?_⟩ <;> omega

/-! ## Candidate pruning lemmas (C9) -/

theorem mem_dedupFirst {α : Type} [DecidableEq α] :
    ∀ (l : List α) (x : α), x ∈ dedupFirst l → x ∈ l := by
  intro l
  induction l using dedupFirst.induct with
  | case1 => intro x hx; simp [dedupFirst] at hx
  | case2 y ys ih =>
    intro x hx
    rw [dedupFirst] at hx
    rcases List.mem_cons.mp hx with rfl | hx
    · exact List.mem_cons_self _ _
    · exact List.mem_cons_of_mem _ (List.mem_filter.mp (ih x hx)).1

theorem mem_if_probe {α : Type} {l : List α} {x : α} {cond : Prop} [Decidable cond]
    (h : x ∈ (if cond then l else [])) : x ∈ l := by
  by_cases hc : cond
  · rwa [if_pos hc] at h
  · rw [if_neg hc] at h; simp at h

theorem probe_subset {inputs : List OperAddressInput} {x : OperAddressInput}
    {p : OperAddressInput → Bool} {cond : Prop} [Decidable cond]
    (h : x ∈ (if cond then inputs.filter p else [])) : x ∈ inputs :=
  (List.mem_filter.mp (mem_if_probe h)).1

theorem mem_ite_dedup {cond : Prop} [Decidable cond]
    {A B : List OperAddressInput} {x : OperAddressInput}
    (h : x ∈ (if cond then dedupFirst A else dedupFirst B)) : x ∈ A ∨ x ∈ B := by
  by_cases hc : cond
  · rw [if_pos hc] at h; exact Or.inl (mem_dedupFirst _ _ h)
  · rw [if_neg hc] at h; exact Or.inr (mem_dedupFirst _ _ h)

theorem getCandidateInputs_subset (j : JunboAddr) (inputs : List OperAddressInput) :
    ∀ x ∈ getCandidateInputs j inputs, x ∈ inputs := by
  intro x hx
  simp only [getCandidateInputs] at hx
  rcases mem_ite_dedup hx with h | h
  · simp only [List.mem_append] at h
    rcases h with ((((h | h) | h) | h) | h) | h <;> exact probe_subset h
  · simp only [List.mem_append] at h
    rcases h with (h | h) | h <;> exact probe_subset h

/-! ## No-candidate outcome (C9) -/

theorem confidenceOf_zero : confidenceOf 0 = Confidence.none := by
  unfold confidenceOf
  rw [if_neg (by norm_num), if_neg (by norm_num), if_neg (by norm_num)]

theorem scoredCandidates_nil (j : JunboAddr) (cands : List OperAddressInput)
    (h : ∀ x ∈ cands, ¬ (0 < (scoreCandidate j x).score)) :
    scoredCandidates j cands = [] := by
  unfold scoredCandidates
  rw [List.filter_eq_nil_iff]
  intro p hp
  obtain ⟨x, hxmem, rfl⟩ := List.mem_map.mp hp
  simpa using h x hxmem

theorem matchOper_empty (j : JunboAddr) (cands : List OperAddressInput)
    (h : scoredCandidates j cands = []) :
    matchOperAddressFromJunboOptimized j cands =
      ⟨Option.none, 0, Method.none, Confidence.none⟩ := by
  simp only [matchOperAddressFromJunboOptimized, h, List.filter_nil, pickBest]
  rw [confidenceOf_zero]

theorem scoreCandidate_full_code (j : JunboAddr) (x : OperAddressInput)
    (h1 : x.provCode ≠ "") (h2 : x.provCode = j.provinceCode)
    (h3 : x.cityCodeIn ≠ "") (h4 : x.cityCodeIn = j.cityCode)
    (h5 : x.distCode ≠ "") (h6 : x.distCode = j.districtCode) :
    (scoreCandidate j x).score = 1 := by
  have hp : provinceStage j x = ⟨1/4, Method.code, true⟩ := by
    simp only [provinceStage]
    rw [if_pos ⟨h1, h2⟩]
  have hc : cityStage j x Method.code = ⟨1/4, Method.code, true⟩ := by
    simp only [cityStage]
    rw [if_pos ⟨h3, h4⟩]
    rfl
  have hd : districtStage j x Method.code = ⟨1/2, Method.code, true, false⟩ := by
    simp only [districtStage]
    rw [if_pos ⟨h5, h6⟩]
    rfl
  simp only [scoreCandidate, hp, hc, hd]
  norm_num

/-- C9 (amended): for a reference composite address whose codes are free
of the key separator `'-'` (so the joined full-code key cannot collide),
if no input record scores above zero against it, `batchMatch` returns —
without error — an output record for it with confidence `none`, all six
matched name/code fields empty, score 0 and `needsConfirmation` true. -/
theorem no_candidate_yields_none_record (c : Catalog) (inputs : List OperAddressInput)
    (j : JunboAddr) (hj : j ∈ generateAllJunboAddresses c)
    (hpa : '-' ∉ j.provinceCode.data) (hpb : '-' ∉ j.cityCode.data)
    (hpc : '-' ∉ j.districtCode.data)
    (hz : ∀ i ∈ inputs, ¬ (0 < (scoreCandidate j i).score)) :
    ∃ r ∈ batchMatch c inputs,
      r.output.junbo_province_name = j.provinceName ∧
      r.output.junbo_city_name = j.cityName ∧
      r.output.junbo_district_name = j.districtName ∧
      r.output.confidence = Confidence.none ∧
      r.output.oper_province_name = "" ∧ r.output.oper_province_code = "" ∧
      r.output.oper_city_name = "" ∧ r.output.oper_city_code = "" ∧
      r.output.oper_district_name = "" ∧ r.output.oper_district_code = "" ∧
      r.output.match_score = 0 ∧ r.needsConfirmation = true := by
  have hnone : byCodeLookup inputs (codeKey j) = Option.none := by
    cases hx : byCodeLookup inputs (codeKey j) with
    | none => rfl
    | some x =>
      exfalso
      unfold byCodeLookup at hx
      have hxmem := mem_of_getLast?' hx
      obtain ⟨hxin, hpred⟩ := List.mem_filter.mp hxmem
      rw [decide_eq_true_eq] at hpred
      obtain ⟨hxp, hxc, hxd, hkey⟩ := hpred
      have hdata := congrArg String.data hkey
      rw [inputKey_data, codeKey_data] at hdata
      obtain ⟨hda, hdb, _⟩ := count_hyphen_parts _ _ _ _ _ _ hpa hpb hpc hdata
      obtain ⟨h1, h23⟩ := append_hyphen_inj _ _ _ _ hda hpa hdata
      obtain ⟨h2, h3⟩ := append_hyphen_inj _ _ _ _ hdb hpb h23
      have hscore : (scoreCandidate j x).score = 1 :=
        scoreCandidate_full_code j x hxp (data_inj h1) hxc (data_inj h2)
          hxd (data_inj h3)
      have hz' := hz x hxin
      rw [hscore] at hz'
      exact hz' (by norm_num)
  have hcand : scoredCandidates j (getCandidateInputs j inputs) = [] :=
    scoredCandidates_nil _ _
      (fun x hx => hz x (getCandidateInputs_subset j inputs x hx))
  have hmr : matchOperAddressFromJunboOptimized j (getCandidateInputs j inputs) =
      ⟨Option.none, 0, Method.none, Confidence.none⟩ := matchOper_empty _ _ hcand
  refine ⟨matchSingleJunboAddress j inputs,
    (batchMatch_perm c inputs).mem_iff.mpr (List.mem_map_of_mem _ hj), ?_⟩
  simp [matchSingleJunboAddress, hnone, hmr]

/-- C9 (counterexample): with catalog codes `"1"`/`"2-3"`/`"4"` and the
input record `i9x` (codes `"1-2"`/`"3"`/`"4"`, empty names), no input
record scores above zero for the single reference address, yet its
output record has confidence `high`, score 1 and a non-empty matched
province code — refuting the claim as stated for arbitrary catalogs. -/
theorem no_candidate_collision_counterexample :
    (∀ i ∈ [i9x], ¬ (0 < (scoreCandidate j9x i).score)) ∧
    (batchMatch cat9x [i9x]).length = 1 ∧
    (∀ r ∈ batchMatch cat9x [i9x],
      r.output.junbo_province_name = j9x.provinceName ∧
      r.output.confidence = Confidence.high ∧
      r.output.match_score = 1 ∧
      r.output.oper_province_code = "1-2" ∧
      r.needsConfirmation = false) := by
  with_unfolding_all decide

/-- C9 (witness): the amended theorem at a hyphen-free one-leaf catalog
with one unrelated input record. -/
theorem no_candidate_yields_none_record_witness :
    (∀ i ∈ [i9w], ¬ (0 < (scoreCandidate j9w i).score)) ∧
    (∃ r ∈ batchMatch cat9w [i9w],
      r.output.junbo_province_name = j9w.provinceName ∧
      r.output.junbo_city_name = j9w.cityName ∧
      r.output.junbo_district_name = j9w.districtName ∧
      r.output.confidence = Confidence.none ∧
      r.output.oper_province_name = "" ∧ r.output.oper_province_code = "" ∧
      r.output.oper_city_name = "" ∧ r.output.oper_city_code = "" ∧
      r.output.oper_district_name = "" ∧ r.output.oper_district_code = "" ∧
      r.output.match_score = 0 ∧ r.needsConfirmation = true) :=
  ⟨by with_unfolding_all decide,
    no_candidate_yields_none_record cat9w [i9w] j9w (by decide) (by decide)
      (by decide) (by decide) (by with_unfolding_all decide)⟩
